import Mathlib

/-!
# Verification of the Band III vocab matching game

A shallow embedding of the card-matching game core: the deck built by
`initGame`, the flip/match/mismatch transitions of `handleCardClick`
together with its scheduled resolution callbacks, the timer tick, the
game-over submission effect, and the `getVocabHint` service wrapper.
Machine state is explicit; scheduled callbacks are modelled as a pending
resolution consumed by a `fire` event; a JavaScript runtime fault
(property access on `undefined`) is modelled as `Option.none`.
-/

namespace Band3

/-- Modelled from the spec: display mode of a session (the `types` module
with the `GameMode` enum is not part of the captured sources). The spec
calls this `DisplayMode`, choosing the primary or the secondary meaning. -/
inductive GameMode where
  | EnglishToArabic
  | EnglishToEnglish
deriving DecidableEq, Repr

/-- Modelled from the spec: difficulty setting (the `types` module with the
`Difficulty` enum is not part of the captured sources; `initGame` branches
on whether the difficulty string mentions Hard or Medium). -/
inductive Difficulty where
  | Easy
  | Medium
  | Hard
deriving DecidableEq, Repr

/-- A vocabulary entry, as consumed by `initGame` and `showHint`
(`item.id`, `item.entry`, `item.meaningArabic`, `item.meaningEnglish`,
`item.pos`). -/
structure VocabItem where
  id : Nat
  entry : String
  meaningArabic : String
  meaningEnglish : String
  pos : String
deriving DecidableEq, Repr

/-- The `type` field of a card: `'term'` or `'match'` in the source. -/
inductive CardType where
  | TERM
  | MATCH
deriving DecidableEq, Repr

/-- A deck card as built by `initGame`. -/
structure CardData where
  vocabId : Nat
  uniqueId : String
  content : String
  type : CardType
  isArabic : Bool := false
deriving DecidableEq, Repr

/-- `wordCount` from `initGame`:
`difficulty.includes('Hard') ? 20 : difficulty.includes('Medium') ? 15 : 10`. -/
def wordCount : Difficulty → Nat
  | .Hard => 20
  | .Medium => 15
  | .Easy => 10

/-- The `pool.forEach` loop of `initGame`: for each selected item push one
TERM card and one MATCH card (content chosen by the display mode). -/
def buildGameCards (pool : List VocabItem) (mode : GameMode) : List CardData :=
  pool.flatMap (fun item =>
    [ { vocabId := item.id, uniqueId := toString item.id ++ "-t",
        content := item.entry, type := .TERM },
      { vocabId := item.id, uniqueId := toString item.id ++ "-m",
        content := if mode = .EnglishToArabic then item.meaningArabic else item.meaningEnglish,
        isArabic := mode = .EnglishToArabic, type := .MATCH } ])

/-- The deck built by `initGame`: shuffle the vocabulary list, take
`wordCount` entries, emit the two cards per entry, shuffle the result.
The two comparator-based shuffles are passed in as functions; theorems
assume only that they permute their input. -/
def initDeck (vocabList : List VocabItem) (difficulty : Difficulty) (mode : GameMode)
    (shufflePool : List VocabItem → List VocabItem)
    (shuffleCards : List CardData → List CardData) : List CardData :=
  shuffleCards (buildGameCards ((shufflePool vocabList).take (wordCount difficulty)) mode)

/-- A scheduled resolution callback of `handleCardClick` (the closure passed
to `setTimeout` when the selection reaches two cards): either the match
callback, which will add `v` (`cards[newFlipped[0]].vocabId`) to
`matchedPairs`, or the mismatch callback. -/
structure Pending where
  isMatch : Bool
  v : Nat
deriving DecidableEq, Repr

/-- The session state owned by `App` that the match engine touches:
`gameState.score/timer/isGameStarted/isGameOver/matchedPairs`, the `cards`
deck, the `flippedCards` selection, the mute flag, plus the modelling
fields `pending` (the scheduled, not yet fired resolution callback) and
`sounds` (the log of audio effects actually played). -/
structure EngineState where
  cards : List CardData
  flippedCards : List Nat
  matchedPairs : List Nat
  score : Nat
  timer : Nat
  isGameStarted : Bool
  isGameOver : Bool
  pending : Option Pending
  isMuted : Bool
  sounds : List String
deriving DecidableEq, Repr

/-- Events of a running session: a click on card index `i`
(`handleCardClick i`), the firing of the scheduled resolution callback,
and a one-second timer tick. -/
inductive Event where
  | click (i : Nat)
  | fire
  | tick
deriving DecidableEq, Repr

/-- One transition of the session. `none` models a JavaScript runtime
fault: `handleCardClick` reads `cards[index].vocabId` in its guard and
`cards[newFlipped[0]].vocabId` when the selection reaches two, and a
lookup off the end of `cards` yields `undefined`, whose property access
throws. Faithful to the source's short-circuit order: the
selection-size and already-selected guards are checked before
`cards[index]` is read. -/
def step (s : EngineState) : Event → Option EngineState
  | .click i =>
    if s.flippedCards.length = 2 ∨ i ∈ s.flippedCards then some s
    else
      match s.cards.get? i with
      | none => none
      | some c =>
        if c.vocabId ∈ s.matchedPairs then some s
        else
          if (s.flippedCards ++ [i]).length = 2 then
            match s.cards.get? (s.flippedCards ++ [i]).headI with
            | none => none
            | some c₀ =>
              some { s with flippedCards := s.flippedCards ++ [i],
                            sounds := if s.isMuted then s.sounds else s.sounds ++ ["flip"],
                            pending := some ⟨decide (c₀.vocabId = c.vocabId), c₀.vocabId⟩ }
          else
            some { s with flippedCards := s.flippedCards ++ [i],
                          sounds := if s.isMuted then s.sounds else s.sounds ++ ["flip"] }
  | .fire =>
    match s.pending with
    | none => some s
    | some p =>
      if p.isMatch then
        some { s with
          matchedPairs := s.matchedPairs ++ [p.v],
          score := s.score + 10,
          isGameOver := decide (s.matchedPairs.length + 1 = s.cards.length / 2),
          flippedCards := [],
          pending := none,
          sounds := if s.isMuted then s.sounds else s.sounds ++ ["match"] }
      else
        some { s with
          flippedCards := [],
          pending := none,
          sounds := if s.isMuted then s.sounds else s.sounds ++ ["error"] }
  | .tick =>
    if s.isGameStarted ∧ ¬ s.isGameOver then some { s with timer := s.timer + 1 }
    else some s

/-- The session state right after `initGame` ran with deck `deck`:
score 0, timer 0, started, not over, no matches, empty selection. -/
def initState (deck : List CardData) (muted : Bool) : EngineState :=
  { cards := deck, flippedCards := [], matchedPairs := [], score := 0, timer := 0,
    isGameStarted := true, isGameOver := false, pending := none,
    isMuted := muted, sounds := [] }

/-- Run a sequence of events from a state; a fault aborts the run. -/
def runFrom (s : EngineState) (evs : List Event) : Option EngineState :=
  evs.foldlM step s

/-- Run a sequence of events from a fresh session on deck `deck`. -/
def run (deck : List CardData) (muted : Bool) (evs : List Event) : Option EngineState :=
  runFrom (initState deck muted) evs

theorem runFrom_nil (s : EngineState) : runFrom s [] = some s := rfl

theorem runFrom_cons (s : EngineState) (e : Event) (evs : List Event) :
    runFrom s (e :: evs) = (step s e).bind fun t => runFrom t evs := by
  simp [runFrom, List.foldlM_cons, Option.bind_eq_bind]

theorem runFrom_append (s : EngineState) (evs evs' : List Event) :
    runFrom s (evs ++ evs') = (runFrom s evs).bind fun t => runFrom t evs' := by
  simp [runFrom, List.foldlM_append, Option.bind_eq_bind]

/-- One transition changes neither the deck, the mute flag nor the started
flag, and either leaves matched set, score and over flag alone, or (the
match callback) adds 10 to the score, appends one vocab id to the matched
set and recomputes the over flag from the new matched count. -/
theorem step_cases {s t : EngineState} {e : Event} (h : step s e = some t) :
    t.cards = s.cards ∧ t.isMuted = s.isMuted ∧ t.isGameStarted = s.isGameStarted ∧
    ((t.matchedPairs = s.matchedPairs ∧ t.score = s.score ∧ t.isGameOver = s.isGameOver) ∨
     (t.score = s.score + 10 ∧ (∃ v, t.matchedPairs = s.matchedPairs ++ [v]) ∧
      t.isGameOver = decide (s.matchedPairs.length + 1 = s.cards.length / 2))) := by
  cases e with
  | click i =>
      simp only [step] at h
      split at h
      · obtain rfl := Option.some.inj h
        exact ⟨rfl, rfl, rfl, Or.inl ⟨rfl, rfl, rfl⟩⟩
      · split at h
        · exact Option.noConfusion h
        · split at h
          · obtain rfl := Option.some.inj h
            exact ⟨rfl, rfl, rfl, Or.inl ⟨rfl, rfl, rfl⟩⟩
          · split at h
            · split at h
              · exact Option.noConfusion h
              · obtain rfl := Option.some.inj h
                exact ⟨rfl, rfl, rfl, Or.inl ⟨rfl, rfl, rfl⟩⟩
            · obtain rfl := Option.some.inj h
              exact ⟨rfl, rfl, rfl, Or.inl ⟨rfl, rfl, rfl⟩⟩
  | fire =>
      simp only [step] at h
      split at h
      · obtain rfl := Option.some.inj h
        exact ⟨rfl, rfl, rfl, Or.inl ⟨rfl, rfl, rfl⟩⟩
      · rename_i p hp
        split at h
        · obtain rfl := Option.some.inj h
          exact ⟨rfl, rfl, rfl, Or.inr ⟨rfl, ⟨p.v, rfl⟩, rfl⟩⟩
        · obtain rfl := Option.some.inj h
          exact ⟨rfl, rfl, rfl, Or.inl ⟨rfl, rfl, rfl⟩⟩
  | tick =>
      simp only [step] at h
      split at h
      · obtain rfl := Option.some.inj h
        exact ⟨rfl, rfl, rfl, Or.inl ⟨rfl, rfl, rfl⟩⟩
      · obtain rfl := Option.some.inj h
        exact ⟨rfl, rfl, rfl, Or.inl ⟨rfl, rfl, rfl⟩⟩

theorem runFrom_invariant {P : EngineState → Prop}
    (hstep : ∀ s e t, step s e = some t → P s → P t) :
    ∀ (evs : List Event) (s t : EngineState), runFrom s evs = some t → P s → P t := by
  intro evs
  induction evs with
  | nil =>
      intro s t h hP
      rw [runFrom_nil] at h
      obtain rfl := Option.some.inj h
      exact hP
  | cons e evs ih =>
      intro s t h hP
      rw [runFrom_cons] at h
      cases hm : step s e with
      | none => rw [hm] at h; exact Option.noConfusion h
      | some u =>
          rw [hm] at h
          simp only [Option.some_bind] at h
          exact ih u t h (hstep s e u hm hP)

theorem run_cards_eq {deck : List CardData} {muted : Bool} {evs : List Event}
    {s : EngineState} (h : run deck muted evs = some s) : s.cards = deck :=
  runFrom_invariant (P := fun t => t.cards = deck)
    (fun _ _ _ hst hP => (step_cases hst).1.trans hP) evs _ s h rfl

/-- C1: after `initGame`, along any sequence of events the score always
equals 10 times the number of matched vocab ids; the matched set is
monotonically non-decreasing under further events; and every single
transition either keeps the score unchanged or adds exactly 10 while
appending exactly one vocab id to the matched set (a confirmed match),
so the score never decreases. -/
theorem score_ten_times_matched_and_monotone (deck : List CardData) (muted : Bool)
    (evs evs' : List Event) (s s' : EngineState)
    (h : run deck muted evs = some s) (h' : run deck muted (evs ++ evs') = some s') :
    s.score = 10 * s.matchedPairs.length ∧
    s.matchedPairs.length ≤ s'.matchedPairs.length ∧
    s.matchedPairs ⊆ s'.matchedPairs ∧
    ∀ e t, step s e = some t →
      t.score = s.score ∨
      (t.score = s.score + 10 ∧ ∃ v, t.matchedPairs = s.matchedPairs ++ [v]) := by
  have hscore : s.score = 10 * s.matchedPairs.length := by
    refine runFrom_invariant (P := fun t => t.score = 10 * t.matchedPairs.length)
      (fun u e t hst hP => ?_) evs _ s h (by simp [initState])
    rcases (step_cases hst).2.2.2 with ⟨hm, hs, _⟩ | ⟨hs, ⟨v, hm⟩, _⟩
    · rw [hs, hm, hP]
    · rw [hs, hm, hP]; simp [List.length_append, Nat.mul_add]
  have hgrow : s.matchedPairs ⊆ s'.matchedPairs ∧
      s.matchedPairs.length ≤ s'.matchedPairs.length := by
    rw [run, runFrom_append] at h'
    rw [run] at h
    rw [h, Option.some_bind] at h'
    refine runFrom_invariant
      (P := fun t => s.matchedPairs ⊆ t.matchedPairs ∧
        s.matchedPairs.length ≤ t.matchedPairs.length)
      (fun u e t hst hP => ?_) evs' s s' h' ⟨fun _ hx => hx, le_refl _⟩
    rcases (step_cases hst).2.2.2 with ⟨hm, _, _⟩ | ⟨_, ⟨v, hm⟩, _⟩
    · rw [hm]; exact hP
    · rw [hm]
      constructor
      · exact fun x hx => List.mem_append_left _ (hP.1 hx)
      · calc s.matchedPairs.length ≤ u.matchedPairs.length := hP.2
          _ ≤ u.matchedPairs.length + 1 := Nat.le_succ _
          _ = (u.matchedPairs ++ [v]).length := by simp
  refine ⟨hscore, hgrow.2, hgrow.1, fun e t hst => ?_⟩
  rcases (step_cases hst).2.2.2 with ⟨_, hs, _⟩ | ⟨hs, hv, _⟩
  · exact Or.inl hs
  · exact Or.inr ⟨hs, hv⟩

/-- C2: at every reachable state of a session started by `initGame` on a
non-empty even-length deck, `isGameOver` holds exactly when twice the
number of matched vocab ids equals the deck length (every pair matched). -/
theorem isGameOver_iff_all_matched (deck : List CardData) (muted : Bool)
    (evs : List Event) (s : EngineState)
    (hne : deck ≠ []) (heven : deck.length % 2 = 0)
    (h : run deck muted evs = some s) :
    s.isGameOver = true ↔ 2 * s.matchedPairs.length = s.cards.length := by
  have hcards := run_cards_eq h
  rw [hcards]
  have hlen : deck.length ≠ 0 := fun h0 => hne (List.length_eq_zero.mp h0)
  obtain ⟨k, hk⟩ : ∃ k, deck.length = 2 * k :=
    ⟨deck.length / 2, by omega⟩
  have main : s.cards = deck ∧
      (s.isGameOver = true ↔ 2 * s.matchedPairs.length = deck.length) := by
    refine runFrom_invariant
      (P := fun t => t.cards = deck ∧
        (t.isGameOver = true ↔ 2 * t.matchedPairs.length = deck.length))
      (fun u e t hst hP => ?_) evs _ s h ?_
    · obtain ⟨hc, _, _, hcase⟩ := step_cases hst
      refine ⟨hc.trans hP.1, ?_⟩
      rcases hcase with ⟨hm, _, ho⟩ | ⟨_, ⟨v, hm⟩, ho⟩
      · rw [ho, hm]; exact hP.2
      · rw [ho, hm, hP.1]
        simp only [List.length_append, List.length_singleton]
        rw [decide_eq_true_iff]
        omega
    · refine ⟨rfl, ?_⟩
      simp only [initState, List.length_nil]
      constructor
      · intro hfalse; exact absurd hfalse (by simp)
      · intro habs; omega
  exact main.2

/-- C3: a click is silently rejected with the whole state unchanged when
the selection already holds two entries, when the index is already in the
selection, or when the card at the index belongs to an already-matched
pair. -/
theorem click_rejected_noop (s : EngineState) (i : Nat)
    (hrej : (s.flippedCards.length = 2 ∨ i ∈ s.flippedCards) ∨
      ∃ c, s.cards.get? i = some c ∧ c.vocabId ∈ s.matchedPairs) :
    step s (.click i) = some s := by
  simp only [step]
  rcases hrej with hg | ⟨c, hc, hm⟩
  · rw [if_pos hg]
  · by_cases hg : s.flippedCards.length = 2 ∨ i ∈ s.flippedCards
    · rw [if_pos hg]
    · rw [if_neg hg, hc]
      simp [hm]

/-- C9: clicking is safe exactly under the in-range precondition: from a
state whose selection holds only in-range indices, a click on an in-range
index never faults, while a click on an out-of-range index that passes
the selection-size and already-selected guards reads `cards[index]` as
`undefined` and faults on its `.vocabId` access (not a silent no-op). -/
theorem click_in_range_safe (s : EngineState) (i : Nat)
    (hflip : ∀ j ∈ s.flippedCards, j < s.cards.length) :
    (i < s.cards.length → (step s (.click i)).isSome = true) ∧
    (s.cards.length ≤ i → s.flippedCards.length ≠ 2 → i ∉ s.flippedCards →
      step s (.click i) = none) := by
  constructor
  · intro hi
    simp only [step]
    by_cases hg : s.flippedCards.length = 2 ∨ i ∈ s.flippedCards
    · rw [if_pos hg]; rfl
    · rw [if_neg hg]
      cases hc : s.cards.get? i with
      | none =>
          have := List.get?_eq_none.mp hc
          omega
      | some c =>
          dsimp only
          by_cases hm : c.vocabId ∈ s.matchedPairs
          · simp [hm]
          · rw [if_neg hm]
            by_cases hl : (s.flippedCards ++ [i]).length = 2
            · rw [if_pos hl]
              have hone : s.flippedCards.length = 1 := by
                simp only [List.length_append, List.length_singleton] at hl
                omega
              obtain ⟨j, hj⟩ := List.length_eq_one.mp hone
              have hjlt : j < s.cards.length := hflip j (by rw [hj]; exact List.mem_singleton_self j)
              have hhead : (s.flippedCards ++ [i]).headI = j := by rw [hj]; rfl
              rw [hhead]
              cases hcj : s.cards.get? j with
              | none =>
                  have := List.get?_eq_none.mp hcj
                  omega
              | some c₀ => rfl
            · rw [if_neg hl]; rfl
  · intro hout h2 hmem
    simp only [step]
    rw [if_neg (by rintro (h | h); exact h2 h; exact hmem h)]
    have hc : s.cards.get? i = none := List.get?_eq_none.mpr hout
    rw [hc]

theorem step_flipped_in_range {s t : EngineState} {e : Event} (h : step s e = some t)
    (hP : ∀ j ∈ s.flippedCards, j < s.cards.length) :
    ∀ j ∈ t.flippedCards, j < t.cards.length := by
  cases e with
  | click i =>
      simp only [step] at h
      split at h
      · obtain rfl := Option.some.inj h; exact hP
      · split at h
        · exact Option.noConfusion h
        · rename_i c heq
          have hi : i < s.cards.length := by
            by_contra hle
            rw [List.get?_eq_none.mpr (by omega)] at heq
            exact Option.noConfusion heq
          split at h
          · obtain rfl := Option.some.inj h; exact hP
          · split at h
            · split at h
              · exact Option.noConfusion h
              · obtain rfl := Option.some.inj h
                intro j hj
                rcases List.mem_append.mp hj with hj | hj
                · exact hP j hj
                · rw [List.mem_singleton.mp hj]; exact hi
            · obtain rfl := Option.some.inj h
              intro j hj
              rcases List.mem_append.mp hj with hj | hj
              · exact hP j hj
              · rw [List.mem_singleton.mp hj]; exact hi
  | fire =>
      simp only [step] at h
      split at h
      · obtain rfl := Option.some.inj h; exact hP
      · split at h
        · obtain rfl := Option.some.inj h
          intro j hj
          exact absurd hj (List.not_mem_nil j)
        · obtain rfl := Option.some.inj h
          intro j hj
          exact absurd hj (List.not_mem_nil j)
  | tick =>
      simp only [step] at h
      split at h
      · obtain rfl := Option.some.inj h; exact hP
      · obtain rfl := Option.some.inj h; exact hP

/-- Reachable states only ever hold in-range indices in the selection, so
the in-range safety hypothesis of the click-safety theorem is an
invariant of every session. -/
theorem run_flipped_in_range {deck : List CardData} {muted : Bool}
    {evs : List Event} {s : EngineState} (h : run deck muted evs = some s) :
    ∀ j ∈ s.flippedCards, j < s.cards.length :=
  runFrom_invariant (P := fun t => ∀ j ∈ t.flippedCards, j < t.cards.length)
    (fun _ _ _ hst hP => step_flipped_in_range hst hP) evs _ s h
    (by intro j hj; simp [initState] at hj)

/-- The non-audio projection of the state: everything except the mute
flag and the log of played sounds. -/
def strip (s : EngineState) :
    List CardData × List Nat × List Nat × Nat × Nat × Bool × Bool × Option Pending :=
  (s.cards, s.flippedCards, s.matchedPairs, s.score, s.timer,
    s.isGameStarted, s.isGameOver, s.pending)

theorem step_strip (s : EngineState) (e : Event) (b : Bool) (l : List String) :
    (step { s with isMuted := b, sounds := l } e).map strip = (step s e).map strip := by
  obtain ⟨cards, fc, mp, sc, tm, gs, go, pd, mu, so⟩ := s
  cases e with
  | click i =>
      simp only [step]
      split
      · rfl
      · split
        · rfl
        · split
          · rfl
          · split
            · split
              · rfl
              · simp [strip]
            · simp [strip]
  | fire =>
      simp only [step]
      split
      · rfl
      · split
        · simp [strip]
        · simp [strip]
  | tick =>
      simp only [step]
      split
      · simp [strip]
      · rfl

theorem strip_eq_elim {s₁ s₂ : EngineState} (h : strip s₁ = strip s₂) :
    s₂ = { s₁ with isMuted := s₂.isMuted, sounds := s₂.sounds } := by
  obtain ⟨c₁, f₁, m₁, s₁', t₁, g₁, o₁, p₁, u₁, d₁⟩ := s₁
  obtain ⟨c₂, f₂, m₂, s₂', t₂, g₂, o₂, p₂, u₂, d₂⟩ := s₂
  simp only [strip, Prod.mk.injEq] at h
  obtain ⟨rfl, rfl, rfl, rfl, rfl, rfl, rfl, rfl⟩ := h
  rfl

theorem step_strip_congr {s₁ s₂ : EngineState} (h : strip s₁ = strip s₂) (e : Event) :
    (step s₁ e).map strip = (step s₂ e).map strip := by
  rw [strip_eq_elim h]
  exact (step_strip s₁ e s₂.isMuted s₂.sounds).symm

theorem runFrom_strip_congr :
    ∀ (evs : List Event) {s₁ s₂ : EngineState}, strip s₁ = strip s₂ →
      (runFrom s₁ evs).map strip = (runFrom s₂ evs).map strip := by
  intro evs
  induction evs with
  | nil => intro s₁ s₂ h; simp [runFrom_nil, h]
  | cons e evs ih =>
      intro s₁ s₂ h
      rw [runFrom_cons, runFrom_cons]
      have hst := step_strip_congr h e
      cases h₁ : step s₁ e with
      | none =>
          rw [h₁] at hst
          cases h₂ : step s₂ e with
          | none => simp
          | some t₂ => rw [h₂] at hst; simp at hst
      | some t₁ =>
          rw [h₁] at hst
          cases h₂ : step s₂ e with
          | none => rw [h₂] at hst; simp at hst
          | some t₂ =>
              rw [h₂] at hst
              simp only [Option.map_some'] at hst
              simp only [Option.some_bind]
              exact ih (Option.some.inj hst)

/-- C10: the mute flag does not interfere with game semantics: the same
deck and the same sequence of clicks, callback firings and timer ticks
yield, under any two mute settings, runs agreeing at every point on deck,
selection, matched set, score, timer, started and over flags and pending
resolution (and one faults exactly when the other does); `isMuted` gates
only the audio log. -/
theorem mute_noninterference (deck : List CardData) (evs : List Event) (m₁ m₂ : Bool) :
    (run deck m₁ evs).map strip = (run deck m₂ evs).map strip := by
  apply runFrom_strip_congr
  rfl

theorem buildGameCards_length (pool : List VocabItem) (mode : GameMode) :
    (buildGameCards pool mode).length = 2 * pool.length := by
  induction pool with
  | nil => rfl
  | cons it rest ih =>
      simp only [buildGameCards, List.flatMap_cons, List.cons_append, List.nil_append,
        List.length_cons, List.length_append] at ih ⊢
      omega

theorem buildGameCards_countP (pool : List VocabItem) (mode : GameMode) (v : Nat) :
    (buildGameCards pool mode).countP (fun card => decide (card.vocabId = v)) =
      2 * pool.countP (fun item => decide (item.id = v)) := by
  induction pool with
  | nil => rfl
  | cons it rest ih =>
      simp only [buildGameCards] at ih ⊢
      rw [List.flatMap_cons, List.countP_append, ih, List.countP_cons, List.countP_cons,
        List.countP_cons, List.countP_nil]
      by_cases hv : it.id = v
      · simp [hv]; omega
      · simp [hv]

theorem buildGameCards_countP_type (pool : List VocabItem) (mode : GameMode) (v : Nat)
    (ty : CardType) :
    (buildGameCards pool mode).countP
        (fun card => decide (card.vocabId = v ∧ card.type = ty)) =
      pool.countP (fun item => decide (item.id = v)) := by
  induction pool with
  | nil => rfl
  | cons it rest ih =>
      simp only [buildGameCards] at ih ⊢
      rw [List.flatMap_cons, List.countP_append, ih, List.countP_cons, List.countP_cons,
        List.countP_cons, List.countP_nil]
      by_cases hv : it.id = v
      · cases ty <;> (simp [hv]; omega)
      · cases ty <;> simp [hv]

theorem mem_buildGameCards {pool : List VocabItem} {mode : GameMode} {card : CardData}
    (h : card ∈ buildGameCards pool mode) : ∃ item ∈ pool, card.vocabId = item.id := by
  simp only [buildGameCards, List.mem_flatMap, List.mem_cons, List.not_mem_nil,
    or_false] at h
  obtain ⟨item, hitem, hc | hc⟩ := h <;> exact ⟨item, hitem, by rw [hc]⟩

theorem countP_le_one_of_nodup_map {α : Type} {l : List α} {f : α → Nat}
    (h : (l.map f).Nodup) (v : Nat) :
    l.countP (fun a => decide (f a = v)) ≤ 1 := by
  induction l with
  | nil => simp
  | cons a rest ih =>
      simp only [List.map_cons, List.nodup_cons] at h
      rw [List.countP_cons]
      by_cases hv : f a = v
      · have hzero : rest.countP (fun x => decide (f x = v)) = 0 := by
          rw [List.countP_eq_zero]
          intro b hb
          simp only [decide_eq_true_eq]
          intro hbv
          exact h.1 (hv ▸ hbv ▸ List.mem_map_of_mem f hb)
        simp [hv, hzero]
      · simpa [hv] using ih h.2

/-- C4: for every vocabulary pool, difficulty and mode, the deck built by
`initGame` (with any two shuffles that permute their input, and distinct
vocab ids in the pool) has length `2 × min (count, |pool|)` with count
10 for Easy, 15 for Medium, 20 for Hard — even, clamped to the pool
size — and every vocab id present in the deck occurs in exactly two
cards: one TERM card and one MATCH card. -/
theorem initDeck_shape (vocabList : List VocabItem) (difficulty : Difficulty)
    (mode : GameMode)
    (shufflePool : List VocabItem → List VocabItem)
    (shuffleCards : List CardData → List CardData)
    (hpool : ∀ l, (shufflePool l).Perm l)
    (hcards : ∀ l, (shuffleCards l).Perm l)
    (hids : (vocabList.map VocabItem.id).Nodup) :
    (initDeck vocabList difficulty mode shufflePool shuffleCards).length =
      2 * min (wordCount difficulty) vocabList.length ∧
    wordCount difficulty = (match difficulty with
      | .Easy => 10 | .Medium => 15 | .Hard => 20) ∧
    ∀ v, (∃ card ∈ initDeck vocabList difficulty mode shufflePool shuffleCards,
        card.vocabId = v) →
      (initDeck vocabList difficulty mode shufflePool shuffleCards).countP
          (fun card => decide (card.vocabId = v)) = 2 ∧
      (initDeck vocabList difficulty mode shufflePool shuffleCards).countP
          (fun card => decide (card.vocabId = v ∧ card.type = .TERM)) = 1 ∧
      (initDeck vocabList difficulty mode shufflePool shuffleCards).countP
          (fun card => decide (card.vocabId = v ∧ card.type = .MATCH)) = 1 := by
  set sel := (shufflePool vocabList).take (wordCount difficulty) with hsel
  have hperm : (initDeck vocabList difficulty mode shufflePool shuffleCards).Perm
      (buildGameCards sel mode) := hcards _
  have hselnodup : (sel.map VocabItem.id).Nodup := by
    have h1 : ((shufflePool vocabList).map VocabItem.id).Nodup :=
      (((hpool vocabList).map VocabItem.id).nodup_iff).mpr hids
    exact h1.sublist (List.Sublist.map _ (List.take_sublist _ _))
  refine ⟨?_, by cases difficulty <;> rfl, ?_⟩
  · rw [hperm.length_eq, buildGameCards_length, hsel, List.length_take,
      (hpool vocabList).length_eq]
  · intro v ⟨card, hcard, hv⟩
    have hsel1 : sel.countP (fun item => decide (item.id = v)) = 1 := by
      have hle := countP_le_one_of_nodup_map hselnodup v
      have hpos : 0 < sel.countP (fun item => decide (item.id = v)) := by
        rw [List.countP_pos_iff]
        obtain ⟨item, hitem, hiv⟩ := mem_buildGameCards (hperm.mem_iff.mp hcard)
        exact ⟨item, hitem, by simp [← hiv, hv]⟩
      omega
    refine ⟨?_, ?_, ?_⟩
    · rw [hperm.countP_eq, buildGameCards_countP, hsel1]
    · rw [hperm.countP_eq, buildGameCards_countP_type, hsel1]
    · rw [hperm.countP_eq, buildGameCards_countP_type, hsel1]


/-- The outcome of the `ai.models.generateContent` call: a response whose
`.text` may be absent, or a thrown error (network or service failure). -/
inductive HintOutcome where
  | ok (text : Option String)
  | err
deriving DecidableEq, Repr

/-- The request content `getVocabHint` sends to the hint service. -/
def hintPrompt (word pos : String) : String :=
  "Provide a very short, simple example sentence for the English word \"" ++ word ++
    "\" (part of speech: " ++ pos ++ "). Keep it under 15 words."

/-- `response.text || fallback`: an absent or empty (falsy) text falls
back to the given default string. -/
def responseText (fallback : String) : Option String → String
  | some s => if s = "" then fallback else s
  | none => fallback

namespace GeminiService

def fallbackNoKey : String := "Complete the match to learn this word!"

def fallbackEmpty : String := "Match the terms to learn more."

def fallbackError : String := "Try matching the terms!"

/-- `getVocabHint` of the gemini service module. The result is the
resolved string paired with the list of network requests attempted; an
`Except.error` result would model a rejected promise. A missing API key
is the falsy `apiKey` (absent or empty string). -/
def getVocabHint (word pos : String) (apiKey : String) (outcome : HintOutcome) :
    Except Unit (String × List String) :=
  if apiKey = "" then .ok (fallbackNoKey, [])
  else
    match outcome with
    | .ok t => .ok (responseText fallbackEmpty t, [hintPrompt word pos])
    | .err => .ok (fallbackError, [hintPrompt word pos])

end GeminiService

namespace IndexGeminiService

def fallbackNoKey : String := "Complete the match to learn this word!"

def fallbackEmpty : String := "Match the terms to learn more."

def fallbackError : String := "Keep matching! You are doing great!"

/-- The second copy of `getVocabHint` shipped in the sources, identical
except for the catch-branch fallback text and the key lookup that
defaults to the empty string. -/
def getVocabHint (word pos : String) (apiKey : String) (outcome : HintOutcome) :
    Except Unit (String × List String) :=
  if apiKey = "" then .ok (fallbackNoKey, [])
  else
    match outcome with
    | .ok t => .ok (responseText fallbackEmpty t, [hintPrompt word pos])
    | .err => .ok (fallbackError, [hintPrompt word pos])

end IndexGeminiService

/-- C7: with no API key configured, both copies of `getVocabHint` resolve
with the fixed fallback string and attempt no network request, for every
term, part of speech and hint-service outcome. -/
theorem hint_no_key_no_network (word pos : String) (outcome : HintOutcome) :
    GeminiService.getVocabHint word pos "" outcome =
      .ok (GeminiService.fallbackNoKey, []) ∧
    IndexGeminiService.getVocabHint word pos "" outcome =
      .ok (IndexGeminiService.fallbackNoKey, []) :=
  ⟨rfl, rfl⟩

/-- C8: `getVocabHint` always resolves with a string and never rejects to
its caller; on a missing key it resolves with the fixed no-key fallback,
and on a service failure it resolves with the fixed catch fallback
instead of a generated sentence (both copies). -/
theorem hint_always_resolves (word pos apiKey : String) (outcome : HintOutcome) :
    (∃ r, GeminiService.getVocabHint word pos apiKey outcome = .ok r) ∧
    (∃ r, IndexGeminiService.getVocabHint word pos apiKey outcome = .ok r) ∧
    (apiKey = "" →
      GeminiService.getVocabHint word pos apiKey outcome =
        .ok (GeminiService.fallbackNoKey, []) ∧
      IndexGeminiService.getVocabHint word pos apiKey outcome =
        .ok (IndexGeminiService.fallbackNoKey, [])) ∧
    (apiKey ≠ "" →
      GeminiService.getVocabHint word pos apiKey .err =
        .ok (GeminiService.fallbackError, [hintPrompt word pos]) ∧
      IndexGeminiService.getVocabHint word pos apiKey .err =
        .ok (IndexGeminiService.fallbackError, [hintPrompt word pos])) := by
  refine ⟨?_, ?_, ?_, ?_⟩
  · by_cases hk : apiKey = ""
    · exact ⟨(GeminiService.fallbackNoKey, []),
        by simp [GeminiService.getVocabHint, hk]⟩
    · cases outcome with
      | ok t =>
          exact ⟨(responseText GeminiService.fallbackEmpty t, [hintPrompt word pos]),
            by simp [GeminiService.getVocabHint, hk]⟩
      | err =>
          exact ⟨(GeminiService.fallbackError, [hintPrompt word pos]),
            by simp [GeminiService.getVocabHint, hk]⟩
  · by_cases hk : apiKey = ""
    · exact ⟨(IndexGeminiService.fallbackNoKey, []),
        by simp [IndexGeminiService.getVocabHint, hk]⟩
    · cases outcome with
      | ok t =>
          exact ⟨(responseText IndexGeminiService.fallbackEmpty t, [hintPrompt word pos]),
            by simp [IndexGeminiService.getVocabHint, hk]⟩
      | err =>
          exact ⟨(IndexGeminiService.fallbackError, [hintPrompt word pos]),
            by simp [IndexGeminiService.getVocabHint, hk]⟩
  · intro hk
    exact ⟨by simp [GeminiService.getVocabHint, hk],
      by simp [IndexGeminiService.getVocabHint, hk]⟩
  · intro hk
    exact ⟨by simp [GeminiService.getVocabHint, hk],
      by simp [IndexGeminiService.getVocabHint, hk]⟩

/-- The `submitStatus` flag of the App component. -/
inductive SubmitStatus where
  | idle
  | submitting
  | success
  | error
deriving DecidableEq, Repr

/-- The submission subsystem: the `submitStatus` flag plus a count of
POSTs actually sent to the results endpoint. -/
structure SubmitState where
  status : SubmitStatus
  posts : Nat
deriving DecidableEq, Repr

/-- `submitResultToSheet`: returns immediately when a submission is in
flight or has already succeeded; otherwise sends one POST and records
success or error according to the fetch outcome `ok`. -/
def submitResultToSheet (ok : Bool) (st : SubmitState) : SubmitState :=
  match st.status with
  | .submitting => st
  | .success => st
  | _ => { status := if ok then .success else .error, posts := st.posts + 1 }

/-- The `useEffect` keyed on `[gameState.isGameOver]`, run over a sequence
of renders: the effect body runs exactly when the dependency changed
since the previous render, and the body calls `submitResultToSheet` only
when `isGameOver` is true. Each render carries its `isGameOver` value and
the fetch outcome a submission started there would see. -/
def runOverEffects (prev : Bool) (renders : List (Bool × Bool))
    (st : SubmitState) : SubmitState :=
  match renders with
  | [] => st
  | (over, ok) :: rest =>
      runOverEffects over rest
        (if over ≠ prev ∧ over = true then submitResultToSheet ok st else st)

theorem runOverEffects_true (renders : List (Bool × Bool)) (st : SubmitState)
    (h : ∀ r ∈ renders, r.1 = true) : runOverEffects true renders st = st := by
  induction renders generalizing st with
  | nil => rfl
  | cons r rest ih =>
      obtain ⟨over, ok⟩ := r
      have hover : over = true := h _ (List.mem_cons_self _ _)
      subst hover
      simp only [runOverEffects, ne_eq, not_true_eq_false, false_and, if_false]
      exact ih st (fun r hr => h r (List.mem_cons_of_mem _ hr))

/-- C6: within one session the over flag goes false…false,true…true; over
all the renders of the session — however often the true flag is
re-evaluated, and whatever each fetch outcome is — the effect sends
exactly one POST to the results endpoint; moreover after a success the
status guard makes any further `submitResultToSheet` call a no-op. -/
theorem submit_exactly_once (b : Nat) (hb : 0 < b) :
    (∀ (a : Nat) (renders : List (Bool × Bool)) (st : SubmitState),
      st.status = .idle →
      renders.map Prod.fst = List.replicate a false ++ List.replicate b true →
      (runOverEffects false renders st).posts = st.posts + 1) ∧
    (∀ (ok : Bool) (st : SubmitState), st.status = .success →
      submitResultToSheet ok st = st) := by
  constructor
  · intro a renders
    induction renders generalizing a with
    | nil =>
        intro st hst hshape
        have := congrArg List.length hshape
        simp at this
        omega
    | cons r rest ih =>
        intro st hst hshape
        obtain ⟨over, ok⟩ := r
        cases a with
        | zero =>
            cases b with
            | zero => omega
            | succ b' =>
                simp only [List.replicate_zero, List.nil_append,
                  List.replicate_succ] at hshape
                simp only [List.map_cons, List.cons.injEq] at hshape
                obtain ⟨hover, hrest⟩ := hshape
                subst hover
                simp only [runOverEffects, ne_eq, Bool.true_eq_false, not_false_eq_true,
                  and_self, if_true, true_and]
                have hsub : (submitResultToSheet ok st).posts = st.posts + 1 := by
                  simp [submitResultToSheet, hst]
                rw [runOverEffects_true rest _ (fun r hr => by
                  have : r.1 ∈ rest.map Prod.fst := List.mem_map_of_mem Prod.fst hr
                  rw [hrest] at this
                  exact List.eq_of_mem_replicate this)]
                exact hsub
        | succ a' =>
            rw [List.replicate_succ, List.cons_append] at hshape
            simp only [List.map_cons, List.cons.injEq] at hshape
            obtain ⟨hover, hrest⟩ := hshape
            subst hover
            simp only [runOverEffects, ne_eq, not_true_eq_false, false_and, if_false]
            exact ih a' st hst hrest
  · intro ok st hst
    simp [submitResultToSheet, hst]

/-- The match resolution callback of `handleCardClick` as it executes when
it fires after `initGame` has reset the session: `cards` (the old deck),
the captured first selected index `j` and the captured mute flag come
from the old render closure, while the functional `setGameState` updater
and `setFlippedCards` act on the current — new — session state. No
session identifier or generation counter guards the callback. -/
def staleMatchCallback (capturedCards : List CardData) (j : Nat)
    (capturedMuted : Bool) (s : EngineState) : Option EngineState :=
  match capturedCards.get? j with
  | none => none
  | some c =>
      some { s with
        matchedPairs := s.matchedPairs ++ [c.vocabId],
        score := s.score + 10,
        isGameOver := decide (s.matchedPairs.length + 1 = capturedCards.length / 2),
        flippedCards := [],
        sounds := if capturedMuted then s.sounds else s.sounds ++ ["match"] }

/-- A sample vocabulary entry for concrete sessions. -/
def sampleItem (n : Nat) : VocabItem :=
  { id := n, entry := "w" ++ toString n, meaningArabic := "a" ++ toString n,
    meaningEnglish := "e" ++ toString n, pos := "noun" }

/-- A two-card deck (one pair), exactly as `initGame` lays cards out. -/
def deckTwo : List CardData := buildGameCards [sampleItem 0] .EnglishToArabic

/-- A four-card deck (two pairs). -/
def deckFour : List CardData :=
  buildGameCards [sampleItem 0, sampleItem 1] .EnglishToArabic

/-- C5 evidence: a match callback of the previous session that fires right
after `initGame` rebuilt the session is not a no-op on the new session:
it pushes the old session's vocab id into the fresh `matchedPairs` and
raises the fresh score to 10. -/
theorem stale_callback_mutates_new_session :
    (staleMatchCallback deckTwo 0 false (initState deckFour false)).map
        (fun s => (s.score, s.matchedPairs)) = some (10, [0]) ∧
    staleMatchCallback deckTwo 0 false (initState deckFour false) ≠
      some (initState deckFour false) := by
  decide

/-- The TERM card of `sampleItem 0`, the head card of `deckTwo`. -/
def termCardZero : CardData :=
  { vocabId := 0, uniqueId := "0-t", content := "w0",
    type := CardType.TERM, isArabic := false }

/-- The state of a `deckTwo` session after its only pair was matched. -/
def overState : EngineState :=
  { cards := deckTwo, flippedCards := [], matchedPairs := [0], score := 10, timer := 0,
    isGameStarted := true, isGameOver := true, pending := none,
    isMuted := false, sounds := ["flip", "flip", "match"] }

theorem score_ten_times_matched_and_monotone_witness :
    run deckTwo false [] = some (initState deckTwo false) ∧
    run deckTwo false ([] ++ [Event.click 0, Event.click 1, Event.fire]) = some overState ∧
    (initState deckTwo false).matchedPairs.length ≤ overState.matchedPairs.length ∧
    (initState deckTwo false).matchedPairs ⊆ overState.matchedPairs ∧
    run deckTwo false [Event.click 0, Event.click 1, Event.fire] = some overState ∧
    run deckTwo false ([Event.click 0, Event.click 1, Event.fire] ++ []) = some overState ∧
    overState.score = 10 * overState.matchedPairs.length := by
  have h₁ : run deckTwo false [] = some (initState deckTwo false) := by decide
  have h₂ : run deckTwo false ([] ++ [Event.click 0, Event.click 1, Event.fire]) =
      some overState := by decide
  have h₃ : run deckTwo false [Event.click 0, Event.click 1, Event.fire] =
      some overState := by decide
  have h₄ : run deckTwo false ([Event.click 0, Event.click 1, Event.fire] ++ []) =
      some overState := by decide
  obtain ⟨-, hlen, hsub, -⟩ :=
    score_ten_times_matched_and_monotone deckTwo false []
      [Event.click 0, Event.click 1, Event.fire] _ overState h₁ h₂
  obtain ⟨hscore, -, -, -⟩ :=
    score_ten_times_matched_and_monotone deckTwo false
      [Event.click 0, Event.click 1, Event.fire] [] overState overState h₃ h₄
  exact ⟨h₁, h₂, hlen, hsub, h₃, h₄, hscore⟩

theorem isGameOver_iff_all_matched_witness :
    deckTwo ≠ [] ∧ deckTwo.length % 2 = 0 ∧
    run deckTwo false [Event.click 0, Event.click 1, Event.fire] = some overState ∧
    (overState.isGameOver = true ↔
      2 * overState.matchedPairs.length = overState.cards.length) :=
  ⟨by decide, by decide, by decide,
    isGameOver_iff_all_matched deckTwo false [Event.click 0, Event.click 1, Event.fire]
      overState (by decide) (by decide) (by decide)⟩

theorem click_rejected_noop_witness :
    ((overState.flippedCards.length = 2 ∨ 0 ∈ overState.flippedCards) ∨
      ∃ c, overState.cards.get? 0 = some c ∧ c.vocabId ∈ overState.matchedPairs) ∧
    step overState (Event.click 0) = some overState := by
  have h : (overState.flippedCards.length = 2 ∨ 0 ∈ overState.flippedCards) ∨
      ∃ c, overState.cards.get? 0 = some c ∧ c.vocabId ∈ overState.matchedPairs :=
    Or.inr ⟨termCardZero, by decide, by decide⟩
  exact ⟨h, click_rejected_noop overState 0 h⟩

theorem initDeck_shape_witness :
    (List.map VocabItem.id [sampleItem 0, sampleItem 1]).Nodup ∧
    (initDeck [sampleItem 0, sampleItem 1] .Easy .EnglishToArabic id id).length =
      2 * min (wordCount .Easy) ([sampleItem 0, sampleItem 1] : List VocabItem).length ∧
    (initDeck [sampleItem 0, sampleItem 1] .Easy .EnglishToArabic id id).countP
      (fun card => decide (card.vocabId = 0)) = 2 := by
  have hids : (List.map VocabItem.id [sampleItem 0, sampleItem 1]).Nodup := by decide
  obtain ⟨hlen, -, hcount⟩ :=
    initDeck_shape [sampleItem 0, sampleItem 1] .Easy .EnglishToArabic id id
      (fun l => List.Perm.refl l) (fun l => List.Perm.refl l) hids
  refine ⟨hids, hlen, (hcount 0 ?_).1⟩
  exact ⟨termCardZero, by decide, rfl⟩

theorem submit_exactly_once_witness :
    0 < 2 ∧
    (⟨SubmitStatus.idle, 0⟩ : SubmitState).status = SubmitStatus.idle ∧
    ([((false, true) : Bool × Bool), (true, true), (true, false)].map Prod.fst =
      List.replicate 1 false ++ List.replicate 2 true) ∧
    (runOverEffects false [(false, true), (true, true), (true, false)]
      ⟨SubmitStatus.idle, 0⟩).posts = 0 + 1 :=
  ⟨by decide, rfl, by decide,
    (submit_exactly_once 2 (by decide)).1 1
      [(false, true), (true, true), (true, false)] ⟨SubmitStatus.idle, 0⟩ rfl (by decide)⟩

theorem hint_always_resolves_witness :
    GeminiService.getVocabHint "cat" "noun" "key" .err =
      .ok (GeminiService.fallbackError, [hintPrompt "cat" "noun"]) ∧
    IndexGeminiService.getVocabHint "cat" "noun" "key" .err =
      .ok (IndexGeminiService.fallbackError, [hintPrompt "cat" "noun"]) :=
  (hint_always_resolves "cat" "noun" "key" .err).2.2.2 (by decide)

theorem click_in_range_safe_witness :
    (∀ j ∈ (initState deckTwo false).flippedCards,
      j < (initState deckTwo false).cards.length) ∧
    (step (initState deckTwo false) (Event.click 0)).isSome = true ∧
    step (initState deckTwo false) (Event.click 5) = none := by
  have hflip : ∀ j ∈ (initState deckTwo false).flippedCards,
      j < (initState deckTwo false).cards.length := by
    intro j hj
    simp [initState] at hj
  refine ⟨hflip, ?_, ?_⟩
  · exact (click_in_range_safe (initState deckTwo false) 0 hflip).1 (by decide)
  · exact (click_in_range_safe (initState deckTwo false) 5 hflip).2
      (by decide) (by decide) (by decide)

end Band3
